import Mathlib

/-!
Verification of the procedural-animation core of the 3d_doc demo (`main.go`):
the motion-profile state machine (`getMovement`, `blendAnim`), the per-frame
accumulated-rotation update of `drawDoc`, the depth-ordering exchange sort,
the shadow-variant bucketing, the chessboard scroll-offset wrap of
`drawChessboard` and `Update`, and the precomputed displacement table of
`precalcScrollX`.  Real-valued program quantities are modelled over `ℝ`;
Go's `math.Mod` and its float-to-int conversion are modelled exactly
(truncation toward zero, remainder carrying the dividend's sign).
-/

open Real

namespace ThreeDDoc

/-- Truncation toward zero, as performed by Go's float-to-int conversion and
by `math.Trunc`: floor for nonnegative inputs, ceiling for negative inputs. -/
noncomputable def truncZ (r : ℝ) : ℤ :=
  if 0 ≤ r then ⌊r⌋ else ⌈r⌉

/-- Go's `math.Mod x y`: the remainder `x - Trunc(x/y)*y`, whose sign agrees
with the sign of `x` and whose magnitude is below `|y|`. -/
noncomputable def goMod (x y : ℝ) : ℝ :=
  x - truncZ (x / y) * y

/-- The four animation parameters returned by `getMovement`. -/
structure Anim where
  SpinSpeed : ℝ
  Displace : ℝ
  BallLineDisplacement : ℝ
  RadiusFromCenterOfScreen : ℝ

/-- Shallow embedding of `getMovement` from `main.go`: the time-indexed
motion-profile lookup.  `index` is the animation phase index (always
nonnegative in the program), `t` the elapsed seconds, `i` the body slot.
Indices below 2 are remapped to `2 + int(t/7) % 6` once `t > 21`; indices
above 7 recurse once into `2 + (index-2) % 6`. -/
noncomputable def getMovement (index : ℕ) (t : ℝ) (i : ℤ) : Anim :=
  let idx := if index < 2 ∧ t > 21 then (2 + ⌊t / 7⌋ % 6).toNat else index
  if h1 : idx = 0 ∨ idx = 1 then ⟨-5, 40, 0, 0⟩
  else if h2 : idx = 2 then ⟨-5, -60 - Real.sin (t * 7) * 95, 35, 150⟩
  else if h3 : idx = 3 then
    ⟨5, Real.sin ((t + (i : ℝ)) * 0.5 * 13) * 90 - 50, 16, 150⟩
  else if h4 : idx = 4 then
    ⟨5, 80 - |Real.sin ((t + (i : ℝ)) * 0.125 * 13.5) * 8 *
      Real.cos ((t + (i : ℝ)) * 0.125 * 13.5) * 42| - 50, 20, 150⟩
  else if h5 : idx = 5 then
    ⟨5, Real.sin ((t + (i : ℝ)) * 0.25 * 13.5) * 8 *
      Real.cos ((t + (i : ℝ)) * 0.25 * 13.5) * 22 - 50, 20, 150⟩
  else if h6 : idx = 6 then
    ⟨-7, Real.sin ((t + (i : ℝ)) * 0.25 * 13.5) * 8 *
      Real.cos ((t + (i : ℝ)) * 0.25 * 13.5) * 22 - 50, 20, 150⟩
  else if h7 : idx = 7 then
    ⟨-8, 10 - |Real.sin ((t * 0.6 + (i : ℝ) * 0.05) * 1.75) * 70| * 2.3, 20, 150⟩
  else getMovement (2 + (idx - 2) % 6) t i
termination_by index
decreasing_by
  have hA : (2 + ⌊t / 7⌋ % 6).toNat ≤ 7 := by omega
  unfold idx at h1 h2 h3 h4 h5 h6 h7
  by_cases hc : index < 2 ∧ t > 21
  · rw [dif_pos hc] at h1 h2 h3 h4 h5 h6 h7
    omega
  · rw [dif_neg hc] at h1 h2 h3 h4 h5 h6 h7
    omega

/-- Fuel-indexed variant of `getMovement`, `none` when the fuel is exhausted
before the lookup resolves; used to state that the recursion in the source
terminates after at most one recursive call. -/
noncomputable def getMovementFuel : ℕ → ℕ → ℝ → ℤ → Option Anim
  | 0, _, _, _ => none
  | fuel + 1, index, t, i =>
    let idx := if index < 2 ∧ t > 21 then (2 + ⌊t / 7⌋ % 6).toNat else index
    if idx = 0 ∨ idx = 1 then some ⟨-5, 40, 0, 0⟩
    else if idx = 2 then some ⟨-5, -60 - Real.sin (t * 7) * 95, 35, 150⟩
    else if idx = 3 then
      some ⟨5, Real.sin ((t + (i : ℝ)) * 0.5 * 13) * 90 - 50, 16, 150⟩
    else if idx = 4 then
      some ⟨5, 80 - |Real.sin ((t + (i : ℝ)) * 0.125 * 13.5) * 8 *
        Real.cos ((t + (i : ℝ)) * 0.125 * 13.5) * 42| - 50, 20, 150⟩
    else if idx = 5 then
      some ⟨5, Real.sin ((t + (i : ℝ)) * 0.25 * 13.5) * 8 *
        Real.cos ((t + (i : ℝ)) * 0.25 * 13.5) * 22 - 50, 20, 150⟩
    else if idx = 6 then
      some ⟨-7, Real.sin ((t + (i : ℝ)) * 0.25 * 13.5) * 8 *
        Real.cos ((t + (i : ℝ)) * 0.25 * 13.5) * 22 - 50, 20, 150⟩
    else if idx = 7 then
      some ⟨-8, 10 - |Real.sin ((t * 0.6 + (i : ℝ) * 0.05) * 1.75) * 70| * 2.3, 20, 150⟩
    else getMovementFuel fuel (2 + (idx - 2) % 6) t i

/-- Shallow embedding of `blendAnim` from `main.go`: componentwise linear
interpolation between two parameter sets. -/
noncomputable def blendAnim (a b : Anim) (alpha : ℝ) : Anim :=
  ⟨a.SpinSpeed * (1 - alpha) + b.SpinSpeed * alpha,
   a.Displace * (1 - alpha) + b.Displace * alpha,
   a.BallLineDisplacement * (1 - alpha) + b.BallLineDisplacement * alpha,
   a.RadiusFromCenterOfScreen * (1 - alpha) + b.RadiusFromCenterOfScreen * alpha⟩

/-- The blend factor computed each frame in `drawDoc`:
`alpha = min(1, Mod(t/7, 1) * 7 * 0.8)`. -/
noncomputable def alphaOf (t : ℝ) : ℝ := min 1 (goMod (t / 7) 1 * 7 * 0.8)

/-- The blended spin speed used for body `i` in a frame whose resolved
animation index is `animIndex` and elapsed time is `t`. -/
noncomputable def spinAt (animIndex : ℕ) (t : ℝ) (i : ℤ) : ℝ :=
  (blendAnim (getMovement animIndex t i) (getMovement (animIndex + 1) t i)
    (alphaOf t)).SpinSpeed

/-- One per-body update of `currentRadians` in `drawDoc`: add the increment,
then wrap with Go's `math.Mod(·, 2π)`. -/
noncomputable def radianStep (r δ : ℝ) : ℝ := goMod (r + δ) (2 * π)

/-- The value of `currentRadians` after the first `n` per-body updates of the
`drawDoc` loop, in a frame with resolved animation index `animIndex`, elapsed
time `t` and incoming accumulated rotation `r0`.  Body `i` (0-based) is
rotated by `frameRadians animIndex t r0 (i+1)`: the accumulator is advanced
once per body, before being applied to that body. -/
noncomputable def frameRadians (animIndex : ℕ) (t : ℝ) (r0 : ℝ) : ℕ → ℝ
  | 0 => r0
  | n + 1 => radianStep (frameRadians animIndex t r0 n)
      (π * 2 / 360 * spinAt animIndex t (n : ℤ) * 0.15)

/-- One frame advance of the chessboard scroll offset `xMove` in
`drawChessboard`: add the step, subtract 32 once if the result exceeds 32,
then add 32 once if the result is below 0. -/
noncomputable def stepX (x s : ℝ) : ℝ :=
  let x1 := x + s
  let x2 := if x1 > 32 then x1 - 32 else x1
  if x2 < 0 then x2 + 32 else x2

/-- The value of `speed` as set each frame of the main animation in `Update`:
`-1 * cos(vbl/40)`. -/
noncomputable def speedOf (vbl : ℝ) : ℝ := -1 * Real.cos (vbl / 40)

/-- The value of `xm` as set each frame of the main animation in `Update`:
`128 * cos(vbl2/40)`. -/
noncomputable def xmOf (vbl2 : ℝ) : ℝ := 128 * Real.cos (vbl2 / 40)

/-- The per-frame increment applied to `xMove` in `drawChessboard`:
`xm * speed * 0.005`. -/
noncomputable def floorInc (vbl vbl2 : ℝ) : ℝ := xmOf vbl2 * speedOf vbl * 0.005

/-- The four index slots produced by the depth-ordering pass in `drawDoc`. -/
structure SortOut where
  o0 : Fin 4
  o1 : Fin 4
  o2 : Fin 4
  o3 : Fin 4

/-- The double-loop exchange sort of `drawDoc` on the four projected depths
`z`: starting from `indices = [0,1,2,3]`, for `i = 0..2` and `j = i+1..3`,
swap `indices[i]` and `indices[j]` whenever `z indices[i] < z indices[j]`.
The six compare-and-swap steps below are the pairs
(0,1),(0,2),(0,3),(1,2),(1,3),(2,3) in program order; `⟨c0, e1, f2, f3⟩` are
the final values of the four slots. -/
noncomputable def sortIndices (z : Fin 4 → ℝ) : SortOut :=
  let a0 : Fin 4 := if z 0 < z 1 then 1 else 0
  let a1 : Fin 4 := if z 0 < z 1 then 0 else 1
  let b0 : Fin 4 := if z a0 < z 2 then 2 else a0
  let b2 : Fin 4 := if z a0 < z 2 then a0 else 2
  let c0 : Fin 4 := if z b0 < z 3 then 3 else b0
  let c3 : Fin 4 := if z b0 < z 3 then b0 else 3
  let d1 : Fin 4 := if z a1 < z b2 then b2 else a1
  let d2 : Fin 4 := if z a1 < z b2 then a1 else b2
  let e1 : Fin 4 := if z d1 < z c3 then c3 else d1
  let e3 : Fin 4 := if z d1 < z c3 then d1 else c3
  let f2 : Fin 4 := if z d2 < z e3 then e3 else d2
  let f3 : Fin 4 := if z d2 < z e3 then d2 else e3
  ⟨c0, e1, f2, f3⟩

/-- The shadow-variant computation in `drawDoc`:
`shadowColor := int(((W - 0.5) * 10) / 2)` followed by
`shadowColor = 3 - max(0, min(3, shadowColor))`.  Go's `int(...)` conversion
truncates toward zero. -/
noncomputable def shadowColorGo (w : ℝ) : ℤ :=
  3 - max 0 (min 3 (truncZ ((w - 0.5) * 10 / 2)))

/-- Modelled from the spec: the shadow intensity bucket
`clamp(3 − floor(((w − 0.5)·10)/2), 0, 3)`. -/
noncomputable def shadowBucketSpec (w : ℝ) : ℤ :=
  max 0 (min 3 (3 - ⌊(w - 0.5) * 10 / 2⌋))

/-- Segment A of the displacement table built by `precalcScrollX`: 389
samples of `20·sin(i·7°) + 30·cos(i·3°)`, degrees as fractions of π. -/
noncomputable def scrollSegA : List ℝ :=
  (List.range 389).map fun (i : ℕ) =>
    20 * Real.sin ((i : ℝ) * (7 / 180 * π)) + 30 * Real.cos ((i : ℝ) * (3 / 180 * π))

/-- Segment B of the displacement table: 68 samples of `30·sin(i·8°)`. -/
noncomputable def scrollSegB : List ℝ :=
  (List.range 68).map fun (i : ℕ) => 30 * Real.sin ((i : ℝ) * (8 / 180 * π))

/-- Final segment of the displacement table: 189 samples of `30·sin(i·8°)`. -/
noncomputable def scrollSegD : List ℝ :=
  (List.range 189).map fun (i : ℕ) => 30 * Real.sin ((i : ℝ) * (8 / 180 * π))

/-- The full displacement table of `precalcScrollX`: segment A, segment B,
segment A again, then the final segment. -/
noncomputable def scrollX : List ℝ :=
  scrollSegA ++ scrollSegB ++ scrollSegA ++ scrollSegD

/-! ### Helper lemmas -/

lemma goMod_bounds (x y : ℝ) (hy : 0 < y) : -y < goMod x y ∧ goMod x y < y := by
  unfold goMod truncZ
  have hyne : y ≠ 0 := ne_of_gt hy
  have hx : (x / y) * y = x := div_mul_cancel₀ x hyne
  split_ifs with h
  · have h1 : (⌊x / y⌋ : ℝ) ≤ x / y := Int.floor_le _
    have h2 : x / y < ⌊x / y⌋ + 1 := Int.lt_floor_add_one _
    have hA := mul_le_mul_of_nonneg_right h1 hy.le
    have hB := mul_lt_mul_of_pos_right h2 hy
    constructor <;> nlinarith
  · have h1 : x / y ≤ (⌈x / y⌉ : ℝ) := Int.le_ceil _
    have h2 : (⌈x / y⌉ : ℝ) < x / y + 1 := Int.ceil_lt_add_one _
    have hA := mul_le_mul_of_nonneg_right h1 hy.le
    have hB := mul_lt_mul_of_pos_right h2 hy
    constructor <;> nlinarith

lemma goMod_eq_self (x y : ℝ) (hy : 0 < y) (hx : |x| < y) : goMod x y = x := by
  unfold goMod truncZ
  have hyne : y ≠ 0 := ne_of_gt hy
  rcases abs_lt.mp hx with ⟨hl, hr⟩
  split_ifs with h
  · have h0 : ⌊x / y⌋ = 0 := by
      rw [Int.floor_eq_zero_iff]
      exact ⟨h, by rw [div_lt_one hy]; exact hr⟩
    rw [h0]; push_cast; ring
  · have h0 : ⌈x / y⌉ = 0 := by
      rw [Int.ceil_eq_zero_iff]
      constructor
      · rw [lt_div_iff₀ hy]; linarith
      · linarith [le_of_not_le h]
    rw [h0]; push_cast; ring

lemma goMod_add_int (x y : ℝ) : ∃ k : ℤ, goMod x y = x + k * y :=
  ⟨-truncZ (x / y), by unfold goMod; push_cast; ring⟩

lemma getMovementFuel_base (idx : ℕ) (h2 : 2 ≤ idx) (h7 : idx ≤ 7) (t : ℝ) (i : ℤ) :
    getMovementFuel 1 idx t i = some (getMovement idx t i) := by
  have hc : ¬(idx < 2 ∧ t > 21) := by omega
  rw [getMovement.eq_def]
  show getMovementFuel (0 + 1) idx t i = _
  rw [getMovementFuel]
  simp only [if_neg hc]
  interval_cases idx <;> norm_num

lemma getMovementFuel_two (index : ℕ) (t : ℝ) (i : ℤ) :
    getMovementFuel 2 index t i = some (getMovement index t i) := by
  show getMovementFuel (1 + 1) index t i = _
  rw [getMovementFuel]
  by_cases hc : index < 2 ∧ t > 21
  · have e1 : 0 ≤ ⌊t / 7⌋ % 6 := Int.emod_nonneg _ (by norm_num)
    have e2 : ⌊t / 7⌋ % 6 < 6 := Int.emod_lt_of_pos _ (by norm_num)
    simp only [if_pos hc]
    rw [getMovement.eq_def]
    simp only [if_pos hc, dite_eq_ite]
    set m := ⌊t / 7⌋ % 6 with hm
    interval_cases m <;> rfl
  · simp only [if_neg hc]
    rw [getMovement.eq_def]
    simp only [if_neg hc, dite_eq_ite]
    by_cases h8 : index ≤ 7
    · interval_cases index <;> norm_num
    · push_neg at h8
      have hne : ¬(index = 0 ∨ index = 1) := by omega
      simp only [if_neg hne, if_neg (by omega : ¬index = 2), if_neg (by omega : ¬index = 3),
        if_neg (by omega : ¬index = 4), if_neg (by omega : ¬index = 5),
        if_neg (by omega : ¬index = 6), if_neg (by omega : ¬index = 7)]
      exact getMovementFuel_base _ (by omega) (by omega) t i

/-- The spin-speed component of every motion profile is a per-phase constant:
it does not depend on the body slot. -/
lemma getMovement_spin_slot_const (index : ℕ) (t : ℝ) (i j : ℤ) :
    (getMovement index t i).SpinSpeed = (getMovement index t j).SpinSpeed := by
  induction index using Nat.strong_induction_on with
  | _ index ih =>
    rw [getMovement.eq_def, getMovement.eq_def]
    by_cases hc : index < 2 ∧ t > 21
    · have e1 : 0 ≤ ⌊t / 7⌋ % 6 := Int.emod_nonneg _ (by norm_num)
      have e2 : ⌊t / 7⌋ % 6 < 6 := Int.emod_lt_of_pos _ (by norm_num)
      simp only [if_pos hc, dite_eq_ite]
      set m := ⌊t / 7⌋ % 6 with hm
      interval_cases m <;>
        norm_num [show ((2:ℤ)).toNat = 2 from rfl, show ((3:ℤ)).toNat = 3 from rfl,
          show ((4:ℤ)).toNat = 4 from rfl, show ((5:ℤ)).toNat = 5 from rfl,
          show ((6:ℤ)).toNat = 6 from rfl, show ((7:ℤ)).toNat = 7 from rfl]
    · simp only [if_neg hc, dite_eq_ite]
      by_cases h8 : index ≤ 7
      · interval_cases index <;> norm_num
      · push_neg at h8
        simp only [if_neg (by omega : ¬(index = 0 ∨ index = 1)),
          if_neg (by omega : ¬index = 2), if_neg (by omega : ¬index = 3),
          if_neg (by omega : ¬index = 4), if_neg (by omega : ¬index = 5),
          if_neg (by omega : ¬index = 6), if_neg (by omega : ¬index = 7)]
        exact ih _ (by omega)

lemma spinAt_slot_const (animIndex : ℕ) (t : ℝ) (i : ℤ) :
    spinAt animIndex t i = spinAt animIndex t 0 := by
  unfold spinAt blendAnim
  simp only
  rw [getMovement_spin_slot_const animIndex t i 0,
    getMovement_spin_slot_const (animIndex + 1) t i 0]

lemma alphaOf_zero : alphaOf 0 = 0 := by
  unfold alphaOf goMod truncZ
  norm_num

lemma spinAt_seven_zero (i : ℤ) : spinAt 7 0 i = -8 := by
  have h7 : (getMovement 7 0 i).SpinSpeed = -8 := by
    rw [getMovement]; norm_num
  unfold spinAt blendAnim
  simp only [alphaOf_zero]
  rw [h7]
  ring

/-- In a frame entered at `t = 0` with the warm-up-forced animation index 7
and incoming accumulated rotation 0, the accumulator after `n ≤ 4` per-body
updates is exactly `n` copies of the (negative) per-body increment. -/
lemma frameRadians_seven (n : ℕ) (hn : n ≤ 4) :
    frameRadians 7 0 0 n = (n : ℝ) * (π * 2 / 360 * (-8) * 0.15) := by
  induction n with
  | zero => simp [frameRadians]
  | succ k ih =>
    have hπ := Real.pi_pos
    have hk3 : (k : ℝ) ≤ 3 := by exact_mod_cast (by omega : k ≤ 3)
    have hk0 : (0:ℝ) ≤ (k : ℝ) := Nat.cast_nonneg k
    show radianStep (frameRadians 7 0 0 k) (π * 2 / 360 * spinAt 7 0 (k : ℤ) * 0.15) = _
    rw [ih (by omega), spinAt_seven_zero]
    unfold radianStep
    have hsum : (k : ℝ) * (π * 2 / 360 * (-8) * 0.15) + π * 2 / 360 * (-8) * 0.15 =
        ((k : ℝ) + 1) * (π * 2 / 360 * (-8) * 0.15) := by ring
    rw [hsum]
    have hval : goMod (((k : ℝ) + 1) * (π * 2 / 360 * (-8) * 0.15)) (2 * π) =
        ((k : ℝ) + 1) * (π * 2 / 360 * (-8) * 0.15) := by
      apply goMod_eq_self _ _ (by positivity)
      rw [abs_of_nonpos (by nlinarith)]
      nlinarith
    rw [hval]
    push_cast
    ring

lemma stepX_mem (x s : ℝ) (hx0 : 0 ≤ x) (hx1 : x ≤ 32) (hs : |s| ≤ 32) :
    0 ≤ stepX x s ∧ stepX x s ≤ 32 := by
  rcases abs_le.mp hs with ⟨hs1, hs2⟩
  simp only [stepX]
  split_ifs <;> constructor <;> linarith

lemma stepX_foldl_mem (l : List ℝ) (hl : ∀ s ∈ l, |s| ≤ 32) :
    ∀ x, 0 ≤ x → x ≤ 32 → 0 ≤ List.foldl stepX x l ∧ List.foldl stepX x l ≤ 32 := by
  induction l with
  | nil => intro x h0 h1; simpa using ⟨h0, h1⟩
  | cons a l ih =>
    intro x h0 h1
    have ha : |a| ≤ 32 := hl a (List.mem_cons_self a l)
    obtain ⟨g0, g1⟩ := stepX_mem x a h0 h1 ha
    simpa using ih (fun s hs => hl s (List.mem_cons_of_mem _ hs)) (stepX x a) g0 g1

lemma floorInc_abs_le (vbl vbl2 : ℝ) : |floorInc vbl vbl2| ≤ 0.64 := by
  unfold floorInc xmOf speedOf
  have h1l := Real.neg_one_le_cos (vbl / 40)
  have h1r := Real.cos_le_one (vbl / 40)
  have h2l := Real.neg_one_le_cos (vbl2 / 40)
  have h2r := Real.cos_le_one (vbl2 / 40)
  rw [abs_le]
  constructor <;> nlinarith [mul_nonneg (sub_nonneg.mpr h1r) (sub_nonneg.mpr h2r),
    mul_nonneg (sub_nonneg.mpr h1r) (by linarith : (0:ℝ) ≤ Real.cos (vbl2 / 40) + 1),
    mul_nonneg (by linarith : (0:ℝ) ≤ Real.cos (vbl / 40) + 1) (sub_nonneg.mpr h2r),
    mul_nonneg (by linarith : (0:ℝ) ≤ Real.cos (vbl / 40) + 1)
      (by linarith : (0:ℝ) ≤ Real.cos (vbl2 / 40) + 1)]

lemma sortIndices_spec (z : Fin 4 → ℝ) :
    List.Perm [(sortIndices z).o0, (sortIndices z).o1, (sortIndices z).o2,
      (sortIndices z).o3] [0, 1, 2, 3] ∧
    z (sortIndices z).o1 ≤ z (sortIndices z).o0 ∧
    z (sortIndices z).o2 ≤ z (sortIndices z).o1 ∧
    z (sortIndices z).o3 ≤ z (sortIndices z).o2 := by
  simp only [sortIndices]
  split_ifs <;> exact ⟨by decide, by linarith, by linarith, by linarith⟩

lemma shadowColorGo_eq_spec (w : ℝ) : shadowColorGo w = shadowBucketSpec w := by
  unfold shadowColorGo shadowBucketSpec truncZ
  split_ifs with h
  · omega
  · push_neg at h
    have hc : ⌈(w - 0.5) * 10 / 2⌉ ≤ 0 := Int.ceil_le.mpr (by push_cast; linarith)
    have hf : ⌊(w - 0.5) * 10 / 2⌋ ≤ ⌈(w - 0.5) * 10 / 2⌉ := Int.floor_le_ceil _
    omega

lemma shadowColorGo_range (w : ℝ) : 0 ≤ shadowColorGo w ∧ shadowColorGo w ≤ 3 := by
  unfold shadowColorGo
  omega

lemma scrollSegA_length : scrollSegA.length = 389 := by
  unfold scrollSegA
  rw [List.length_map, List.length_range]

lemma scrollSegB_length : scrollSegB.length = 68 := by
  unfold scrollSegB
  rw [List.length_map, List.length_range]

lemma scrollSegD_length : scrollSegD.length = 189 := by
  unfold scrollSegD
  rw [List.length_map, List.length_range]

lemma scrollX_length : scrollX.length = 1035 := by
  unfold scrollX
  rw [List.length_append, List.length_append, List.length_append,
    scrollSegA_length, scrollSegB_length, scrollSegD_length]

lemma scrollSegA_getElem (n : ℕ) (hn : n < 389) :
    scrollSegA[n]? = some (20 * Real.sin ((n : ℝ) * (7 / 180 * π)) +
      30 * Real.cos ((n : ℝ) * (3 / 180 * π))) := by
  unfold scrollSegA
  rw [List.getElem?_map, List.getElem?_range hn, Option.map_some']

lemma scrollX_getD_of_lt (n : ℕ) (hn : n < 389) :
    scrollX.getD n 0 = 20 * Real.sin ((n : ℝ) * (7 / 180 * π)) +
      30 * Real.cos ((n : ℝ) * (3 / 180 * π)) := by
  unfold scrollX
  rw [List.getD_eq_getElem?_getD,
    List.getElem?_append_left (by rw [List.length_append, List.length_append,
      scrollSegA_length, scrollSegB_length]; omega),
    List.getElem?_append_left (by rw [List.length_append,
      scrollSegA_length, scrollSegB_length]; omega),
    List.getElem?_append_left (by rw [scrollSegA_length]; omega),
    scrollSegA_getElem n hn, Option.getD_some]

end ThreeDDoc

namespace ThreeDDoc

/-! ### Claim theorems -/

/-- C1 (amended): after every per-body update, `currentRadians` lies in the
open interval `(-2π, 2π)` — Go's `math.Mod` keeps the sign of its first
argument, so the wrapped value is negative while the blended spin speed is
negative — and each update changes it by exactly the per-body increment
modulo 2π. -/
theorem C1_theorem (r δ : ℝ) :
    (-(2 * π) < radianStep r δ ∧ radianStep r δ < 2 * π) ∧
    ∃ k : ℤ, radianStep r δ = r + δ + k * (2 * π) := by
  have h2π : (0:ℝ) < 2 * π := by positivity
  obtain ⟨h1, h2⟩ := goMod_bounds (r + δ) (2 * π) h2π
  obtain ⟨k, hk⟩ := goMod_add_int (r + δ) (2 * π)
  exact ⟨⟨h1, h2⟩, k, by unfold radianStep; rw [hk]⟩

/-- C1 (counterexample): in a frame entered with accumulated rotation 0 at
`t = 0` (warm-up forces animation index 7, whose spin speed is −8), the
accumulated rotation after the frame's four per-body updates is negative,
hence outside `[0, 2π)`, and it decreased rather than increased. -/
theorem C1_counterexample : frameRadians 7 0 0 4 < 0 := by
  rw [frameRadians_seven 4 le_rfl]
  have hπ := Real.pi_pos
  nlinarith

/-- C2 (amended): for every starting `xMove` in `[0, 32)` and every sequence
of 10000 advances whose step sizes are bounded by 32 in absolute value, the
add-then-single-correction update keeps `xMove` inside the closed interval
`[0, 32]` after every advance. -/
theorem C2_theorem (steps : List ℝ) (_hlen : steps.length = 10000)
    (hsteps : ∀ s ∈ steps, |s| ≤ 32) (x : ℝ) (hx0 : 0 ≤ x) (hx1 : x < 32) (k : ℕ) :
    0 ≤ List.foldl stepX x (List.take k steps) ∧
    List.foldl stepX x (List.take k steps) ≤ 32 :=
  stepX_foldl_mem (List.take k steps)
    (fun s hs => hsteps s (List.take_subset k steps hs)) x hx0 hx1.le

/-- C2 (witness): the amended theorem applied to the zero start, the
all-zero 10000-step sequence, and the empty prefix. -/
theorem C2_witness :
    0 ≤ List.foldl stepX 0 (List.take 0 (List.replicate 10000 (0:ℝ))) ∧
    List.foldl stepX 0 (List.take 0 (List.replicate 10000 (0:ℝ))) ≤ 32 :=
  C2_theorem (List.replicate 10000 0) (by rw [List.length_replicate])
    (fun s hs => by rw [List.eq_of_mem_replicate hs]; norm_num) 0 le_rfl (by norm_num) 0

/-- C2 (counterexample): with arbitrary step sizes the claim fails: starting
from 0, a first step of 100 leaves `xMove = 68`, outside `[0, 32)`, because
the update subtracts 32 at most once. -/
theorem C2_counterexample :
    ¬ ∀ (x : ℝ), 0 ≤ x → x < 32 → ∀ steps : List ℝ, steps.length = 10000 →
      ∀ k : ℕ, 0 ≤ List.foldl stepX x (List.take k steps) ∧
        List.foldl stepX x (List.take k steps) < 32 := by
  intro h
  have h68 : List.foldl stepX 0 (List.take 1 (100 :: List.replicate 9999 (0:ℝ))) = 68 := by
    rw [List.take_succ_cons, List.take_zero]
    simp only [List.foldl_cons, List.foldl_nil, stepX]
    norm_num
  have hb := (h 0 le_rfl (by norm_num) (100 :: List.replicate 9999 0)
    (by rw [List.length_cons, List.length_replicate]) 1).2
  rw [h68] at hb
  norm_num at hb

/-- C3 (amended): the exchange sort of `drawDoc` is strictly descending for
pairwise-distinct depths; it is not stable in general (see the
counterexample), but with no ties the output depths strictly decrease. -/
theorem C3_theorem (z : Fin 4 → ℝ) (hdist : ∀ a b : Fin 4, a ≠ b → z a ≠ z b) :
    z (sortIndices z).o1 < z (sortIndices z).o0 ∧
    z (sortIndices z).o2 < z (sortIndices z).o1 ∧
    z (sortIndices z).o3 < z (sortIndices z).o2 := by
  obtain ⟨hperm, h01, h12, h23⟩ := sortIndices_spec z
  have hnd : List.Nodup [(sortIndices z).o0, (sortIndices z).o1, (sortIndices z).o2,
      (sortIndices z).o3] := hperm.nodup_iff.mpr (by decide)
  have hne01 : (sortIndices z).o1 ≠ (sortIndices z).o0 := by
    intro he; rw [he] at hnd; simp at hnd
  have hne12 : (sortIndices z).o2 ≠ (sortIndices z).o1 := by
    intro he; rw [he] at hnd; simp at hnd
  have hne23 : (sortIndices z).o3 ≠ (sortIndices z).o2 := by
    intro he; rw [he] at hnd; simp at hnd
  exact ⟨lt_of_le_of_ne h01 (hdist _ _ hne01),
    lt_of_le_of_ne h12 (hdist _ _ hne12),
    lt_of_le_of_ne h23 (hdist _ _ hne23)⟩

/-- C3 (witness): the amended theorem applied to the pairwise-distinct
depth vector `(3, 2, 1, 0)`. -/
theorem C3_witness :
    (![3, 2, 1, 0] : Fin 4 → ℝ) (sortIndices ![3, 2, 1, 0]).o1 <
      (![3, 2, 1, 0] : Fin 4 → ℝ) (sortIndices ![3, 2, 1, 0]).o0 ∧
    (![3, 2, 1, 0] : Fin 4 → ℝ) (sortIndices ![3, 2, 1, 0]).o2 <
      (![3, 2, 1, 0] : Fin 4 → ℝ) (sortIndices ![3, 2, 1, 0]).o1 ∧
    (![3, 2, 1, 0] : Fin 4 → ℝ) (sortIndices ![3, 2, 1, 0]).o3 <
      (![3, 2, 1, 0] : Fin 4 → ℝ) (sortIndices ![3, 2, 1, 0]).o2 :=
  C3_theorem ![3, 2, 1, 0] (by
    intro a b hab
    fin_cases a <;> fin_cases b <;> simp_all)

/-- C3 (counterexample): the pass is not stable.  On depths `(2, 2, 3, 0)`
the tied indices 0 and 1 (both of depth 2) come out in the order 1 before 0,
reversing their original index order. -/
theorem C3_counterexample :
    (![2, 2, 3, 0] : Fin 4 → ℝ) 0 = (![2, 2, 3, 0] : Fin 4 → ℝ) 1 ∧
    (sortIndices ![2, 2, 3, 0]).o1 = 1 ∧ (sortIndices ![2, 2, 3, 0]).o2 = 0 := by
  norm_num [sortIndices, Matrix.cons_val_zero, Matrix.cons_val_one, Matrix.head_cons,
    Matrix.cons_val_two, Matrix.cons_val_three, Matrix.tail_cons]

/-- C4 (amended): within a frame all four bodies share the same per-body
spin increment — the blended spin speed does not depend on the body slot —
but the accumulator advances once per body, so consecutive bodies' rotation
angles differ by that shared increment modulo 2π rather than being equal. -/
theorem C4_theorem (animIndex : ℕ) (t r0 : ℝ) (i : ℕ) :
    spinAt animIndex t (i : ℤ) = spinAt animIndex t 0 ∧
    ∃ k : ℤ, frameRadians animIndex t r0 (i + 1) =
      frameRadians animIndex t r0 i + π * 2 / 360 * spinAt animIndex t 0 * 0.15 +
        k * (2 * π) := by
  refine ⟨spinAt_slot_const animIndex t (i : ℤ), ?_⟩
  show ∃ k : ℤ, radianStep (frameRadians animIndex t r0 i)
      (π * 2 / 360 * spinAt animIndex t ((i : ℕ) : ℤ) * 0.15) = _
  rw [spinAt_slot_const animIndex t ((i : ℕ) : ℤ)]
  unfold radianStep
  obtain ⟨k, hk⟩ := goMod_add_int (frameRadians animIndex t r0 i +
    π * 2 / 360 * spinAt animIndex t 0 * 0.15) (2 * π)
  exact ⟨k, by rw [hk]⟩

/-- C4 (counterexample): the rotation angle is not applied identically to
all bodies in a frame: at `t = 0` with animation index 7 and accumulated
rotation 0, body 0 is rotated by one (negative) increment and body 1 by two,
and these differ. -/
theorem C4_counterexample : frameRadians 7 0 0 1 ≠ frameRadians 7 0 0 2 := by
  rw [frameRadians_seven 1 (by norm_num), frameRadians_seven 2 (by norm_num)]
  have hπ := Real.pi_pos
  intro h
  push_cast at h
  nlinarith

/-- C5: for any four input depths the depth-ordering pass outputs a
permutation of {0, 1, 2, 3} whose associated depths are non-increasing. -/
theorem C5_theorem (z : Fin 4 → ℝ) :
    List.Perm [(sortIndices z).o0, (sortIndices z).o1, (sortIndices z).o2,
      (sortIndices z).o3] [0, 1, 2, 3] ∧
    z (sortIndices z).o1 ≤ z (sortIndices z).o0 ∧
    z (sortIndices z).o2 ≤ z (sortIndices z).o1 ∧
    z (sortIndices z).o3 ≤ z (sortIndices z).o2 :=
  sortIndices_spec z

/-- C6: for every shadow sprite scale `w`, the code's
truncate-then-clamp-then-subtract computation equals the spec's
floor-then-subtract-then-clamp bucket, and the result lies in {0, 1, 2, 3}. -/
theorem C6_theorem (w : ℝ) :
    shadowColorGo w = shadowBucketSpec w ∧
    shadowColorGo w ∈ ({0, 1, 2, 3} : Set ℤ) := by
  refine ⟨shadowColorGo_eq_spec w, ?_⟩
  have h := shadowColorGo_range w
  simp only [Set.mem_insert_iff, Set.mem_singleton_iff]
  omega

/-- C7: for every index above 7, every time and every body slot, the
motion-profile lookup agrees with the lookup at `2 + (index − 2) % 6`. -/
theorem C7_theorem (index : ℕ) (h : 7 < index) (t : ℝ) (i : ℤ) :
    getMovement index t i = getMovement (2 + (index - 2) % 6) t i := by
  rw [getMovement.eq_def]
  have hc : ¬(index < 2 ∧ t > 21) := by omega
  simp only [if_neg hc]
  rw [dif_neg (by omega : ¬(index = 0 ∨ index = 1)),
    dif_neg (by omega : ¬index = 2), dif_neg (by omega : ¬index = 3),
    dif_neg (by omega : ¬index = 4), dif_neg (by omega : ¬index = 5),
    dif_neg (by omega : ¬index = 6), dif_neg (by omega : ¬index = 7)]

/-- C7 (witness): the wrap theorem applied at index 8, time 0, slot 0. -/
theorem C7_witness :
    7 < 8 ∧ getMovement 8 0 0 = getMovement (2 + (8 - 2) % 6) 0 0 :=
  ⟨by norm_num, C7_theorem 8 (by norm_num) 0 0⟩

/-- C8: the displacement table has length 1035, its sample 0 equals
`20·sin 0 + 30·cos 0 = 30`, and its sample 388 equals the closed form
`20·sin(388·7°) + 30·cos(388·3°)` with degrees as fractions of π. -/
theorem C8_theorem :
    scrollX.length = 1035 ∧ scrollX.getD 0 0 = 30 ∧
    scrollX.getD 388 0 =
      20 * Real.sin (388 * (7 / 180 * π)) + 30 * Real.cos (388 * (3 / 180 * π)) := by
  refine ⟨scrollX_length, ?_, ?_⟩
  · rw [scrollX_getD_of_lt 0 (by norm_num)]
    norm_num
  · rw [scrollX_getD_of_lt 388 (by norm_num)]
    norm_num

/-- C9: the engine's actual per-frame increment to `xMove` is bounded by
0.64 in absolute value, and the single-correction wrap maps `[0, 32]` into
`[0, 32]` on every frame. -/
theorem C9_theorem (vbl vbl2 x : ℝ) (hx0 : 0 ≤ x) (hx1 : x ≤ 32) :
    |floorInc vbl vbl2| ≤ 0.64 ∧
    0 ≤ stepX x (floorInc vbl vbl2) ∧ stepX x (floorInc vbl vbl2) ≤ 32 := by
  have hb := floorInc_abs_le vbl vbl2
  obtain ⟨h1, h2⟩ := stepX_mem x (floorInc vbl vbl2) hx0 hx1 (hb.trans (by norm_num))
  exact ⟨hb, h1, h2⟩

/-- C9 (witness): the bound theorem applied at `vbl = vbl2 = 0`, `x = 0`
(where the increment is exactly −0.64 and the update wraps to 31.36). -/
theorem C9_witness :
    |floorInc 0 0| ≤ 0.64 ∧ 0 ≤ stepX 0 (floorInc 0 0) ∧ stepX 0 (floorInc 0 0) ≤ 32 :=
  C9_theorem 0 0 0 le_rfl (by norm_num)

/-- C10: `getMovement` terminates for every nonnegative index: the
fuel-indexed variant already resolves with fuel 2, i.e. after at most one
recursive call, and agrees with the total function everywhere. -/
theorem C10_theorem (index : ℕ) (t : ℝ) (i : ℤ) :
    getMovementFuel 2 index t i = some (getMovement index t i) :=
  getMovementFuel_two index t i

end ThreeDDoc
